import Mathlib

/-!
Verification of the task scheduler and retry policy implemented in
src/services/geminiService.ts: the PromiseQueue class, the retryOperation
function with its error classification, and the field-preserving result
assembly of regenerateQuestionData.

JavaScript strings are modelled as lists of characters:
String.prototype.includes is contiguous-substring containment and
String.prototype.toLowerCase is character-wise Char.toLower.
-/

/-- Model of a JavaScript string: a list of characters. -/
abbrev JSStr := List Char

/-- Decides whether `p` is a prefix of `s` (character-wise equality). -/
def isPre : JSStr → JSStr → Bool
  | [], _ => true
  | _ :: _, [] => false
  | a :: p, b :: s => a == b && isPre p s

/-- Model of JavaScript `s.includes(p)`: `p` occurs contiguously in `s`. -/
def includesStr : JSStr → JSStr → Bool
  | [], p => isPre p []
  | c :: s, p => isPre p (c :: s) || includesStr s p

/-- Model of JavaScript `s.toLowerCase()` (character-wise, basic latin). -/
def lowerStr (s : JSStr) : JSStr := s.map Char.toLower

/-- Value of the `code` or `status` field of a caught error: a number, a
string, or absent. JavaScript strict equality `===` against a number or a
string only succeeds in the branch of matching type. -/
inductive JSField where
  | num (n : Int)
  | str (s : JSStr)
  | undefined
deriving DecidableEq

/-- Model of a caught error inside retryOperation: its `code`, `status` and
`message` fields, the only fields the function inspects. -/
structure JSError where
  code : JSField
  status : JSField
  message : Option JSStr
deriving DecidableEq

/-- Translation of the `isRateLimitError` test in retryOperation:
`error.code === 429 || error.status === 429 ||
 error.status === "RESOURCE_EXHAUSTED" || (error.message &&
 (error.message.includes("429") ||
  error.message.toLowerCase().includes("quota") ||
  error.message.toLowerCase().includes("exhausted")))`. -/
def isRateLimitError (e : JSError) : Bool :=
  e.code == .num 429 || e.status == .num 429 ||
    e.status == .str ("RESOURCE_EXHAUSTED".data) ||
    (match e.message with
      | some m =>
          includesStr m ("429".data) ||
          includesStr (lowerStr m) ("quota".data) ||
          includesStr (lowerStr m) ("exhausted".data)
      | none => false)

/-- Translation of the `isNetworkError` test in retryOperation:
`error.message && (error.message.includes("xhr") ||
 error.message.includes("fetch") || error.message.includes("network") ||
 error.message.includes("Failed to fetch"))`. -/
def isNetworkError (e : JSError) : Bool :=
  match e.message with
  | some m =>
      includesStr m ("xhr".data) || includesStr m ("fetch".data) ||
        includesStr m ("network".data) ||
        includesStr m ("Failed to fetch".data)
  | none => false

/-- Translation of the `isServerError` test in retryOperation:
`error.code === 500 || error.code === 503 || error.status === 500 ||
 error.status === 503`. -/
def isServerError (e : JSError) : Bool :=
  e.code == .num 500 || e.code == .num 503 ||
    e.status == .num 500 || e.status == .num 503

/-- Translation of the `isRpcError` test in retryOperation:
`error.message && error.message.includes("error code: 6")`. -/
def isRpcError (e : JSError) : Bool :=
  match e.message with
  | some m => includesStr m ("error code: 6".data)
  | none => false

/-- Failure classification induced by the branch order of retryOperation:
the rate-limit test is applied first, then the three transient tests,
and everything else is fatal. -/
inductive ErrClass where
  | rateLimited
  | transient
  | fatal
deriving DecidableEq

/-- Classification of an error, following the if-chain of retryOperation. -/
def classify (e : JSError) : ErrClass :=
  if isRateLimitError e then .rateLimited
  else if isNetworkError e || isServerError e || isRpcError e then .transient
  else .fatal

/-- Kind of a wait inserted between attempts: the 5000–8000 ms rate-limit
wait, or the exponential-backoff wait of `delay` ms. -/
inductive WaitKind where
  | rateLimit
  | backoff
deriving DecidableEq

/-- Observable trace of one retryOperation run: the settled outcome, the
number of invocations of the operation, the waits inserted between attempts
(kind and duration in milliseconds, in order), and the successive values of
the `delay` parameter at each invocation. -/
structure RetryResult (α : Type) where
  result : Except JSError α
  calls : Nat
  waits : List (WaitKind × ℚ)
  delaysUsed : List ℚ

/-- Model of retryOperation. The successive invocation outcomes of the
operation are `op idx, op (idx+1), ...`; `rand i` is the value Math.random()
yields for the wait following attempt `i`. Translated from the source: try
the operation; on failure, if `retries <= 0` re-throw the error; else if the
rate-limit test holds wait `5000 + rand * 3000` ms and recurse with
`retries - 1` and `delay * 2`; else if the network, server or rpc test holds
wait `delay` ms and recurse with `retries - 1` and `delay * 2`; otherwise
re-throw immediately. The `retries` argument is non-negative at every call
the program makes (call sites pass 2 or the default 2, and the recursion
decrements only when `retries > 0`), so it is modelled as a `Nat` and the
source's `retries <= 0` test is the `0` case. -/
def retryOperation (op : Nat → Except JSError α) (rand : Nat → ℚ) :
    Nat → Nat → ℚ → RetryResult α
  | idx, retries, delay =>
    match op idx with
    | .ok a => ⟨.ok a, 1, [], [delay]⟩
    | .error e =>
      match retries with
      | 0 => ⟨.error e, 1, [], [delay]⟩
      | rem + 1 =>
        if isRateLimitError e then
          let w : ℚ := 5000 + rand idx * 3000
          let r := retryOperation op rand (idx + 1) rem (delay * 2)
          ⟨r.result, r.calls + 1, (WaitKind.rateLimit, w) :: r.waits,
            delay :: r.delaysUsed⟩
        else if isNetworkError e || isServerError e || isRpcError e then
          let r := retryOperation op rand (idx + 1) rem (delay * 2)
          ⟨r.result, r.calls + 1, (WaitKind.backoff, delay) :: r.waits,
            delay :: r.delaysUsed⟩
        else ⟨.error e, 1, [], [delay]⟩

/-- Case-insensitive containment as the specification reads it: the
lowercased message contains the lowercased pattern. -/
def containsCI (m p : JSStr) : Bool := includesStr (lowerStr m) (lowerStr p)

/-- Written from the specification's words, for comparison with the code's
classifier: a failure is rate-limited exactly when its code or status equals
429, its status equals the resource-exhaustion marker, or its message
contains "429", "quota" or "exhausted" case-insensitively. -/
def specRateLimited (e : JSError) : Bool :=
  e.code == .num 429 || e.status == .num 429 ||
    e.status == .str ("RESOURCE_EXHAUSTED".data) ||
    (match e.message with
      | some m =>
          containsCI m ("429".data) || containsCI m ("quota".data) ||
            containsCI m ("exhausted".data)
      | none => false)

/-- Written from the specification's words: the transient condition holds
when the message contains a connectivity term (xhr, fetch, network, Failed
to fetch), the code or status equals 500 or 503, or the message contains the
internal RPC marker "error code: 6". The specification classifies a failure
transient when this holds and the failure is not rate-limited. -/
def specTransientCond (e : JSError) : Bool :=
  (match e.message with
    | some m =>
        includesStr m ("xhr".data) || includesStr m ("fetch".data) ||
          includesStr m ("network".data) ||
          includesStr m ("Failed to fetch".data)
    | none => false) ||
    e.code == .num 500 || e.status == .num 500 ||
    e.code == .num 503 || e.status == .num 503 ||
    (match e.message with
      | some m => includesStr m ("error code: 6".data)
      | none => false)

/-- Item held in the PromiseQueue: the wrapped task, identified by a unique
`taskId`, together with the priority flag it was submitted with. -/
structure QueueItem where
  taskId : Nat
  priority : Bool
deriving DecidableEq

namespace PromiseQueue

/-- Queue-insertion step of PromiseQueue.add. A priority item is inserted at
the index computed by `this.queue.findIndex((i) => !i.priority)`, or pushed
at the tail when that index is -1; a non-priority item is always pushed at
the tail. -/
def insertItem (queue : List QueueItem) (item : QueueItem) : List QueueItem :=
  if item.priority then
    match queue.findIdx? (fun i => !i.priority) with
    | none => queue ++ [item]
    | some insertIndex =>
        queue.take insertIndex ++ item :: queue.drop insertIndex
  else queue ++ [item]

/-- State of a PromiseQueue: the pending queue, the `running` counter (an
integer, as in the source), the identifiers of the tasks whose `.finally`
callback is still outstanding, and every item ever started, in dispatch
order. The last two fields are history variables: they record information
about the execution and do not influence the queue's computation. -/
structure State where
  queue : List QueueItem
  running : Int
  runningTasks : List Nat
  started : List QueueItem
deriving DecidableEq

/-- Initial state of `new PromiseQueue(concurrency)`. -/
def init : State := ⟨[], 0, [], []⟩

/-- The `while` loop of PromiseQueue.run: while `running < concurrency` and
the queue is non-empty, shift the head item, increment `running`, and start
the item's task (recorded in the `runningTasks` and `started` history). -/
def runAux (concurrency : Nat) :
    List QueueItem → Int → List Nat → List QueueItem → State
  | [], running, runningTasks, started =>
      ⟨[], running, runningTasks, started⟩
  | item :: rest, running, runningTasks, started =>
    if running < (concurrency : Int) then
      runAux concurrency rest (running + 1) (runningTasks ++ [item.taskId])
        (started ++ [item])
    else ⟨item :: rest, running, runningTasks, started⟩

/-- PromiseQueue.run on a state. -/
def run (concurrency : Nat) (s : State) : State :=
  runAux concurrency s.queue s.running s.runningTasks s.started

/-- External events of a PromiseQueue: submission of a task by add (with a
fresh identifier and a priority flag), and settlement of a started task,
which fires its `.finally(() => { this.running--; this.run(); })`. -/
inductive Event where
  | add (id : Nat) (priority : Bool)
  | complete (id : Nat)
deriving DecidableEq

/-- One event of the queue model. An add inserts the new item and calls run;
its identifier must be fresh (task identities are unique). A complete is
possible only for a task that was started and has not settled yet; it
decrements `running` and calls run. -/
def step (concurrency : Nat) (s : State) : Event → Option State
  | .add id priority =>
    if ((s.queue ++ s.started).map QueueItem.taskId).contains id then none
    else some (run concurrency
      { s with queue := insertItem s.queue ⟨id, priority⟩ })
  | .complete id =>
    if s.runningTasks.contains id then
      some (run concurrency
        { s with running := s.running - 1,
                 runningTasks := s.runningTasks.erase id })
    else none

/-- Runs a list of events from a state; `none` when an event is impossible. -/
def execFrom (concurrency : Nat) (s : State) : List Event → Option State
  | [] => some s
  | e :: evs =>
    match step concurrency s e with
    | none => none
    | some s2 => execFrom concurrency s2 evs

/-- Runs a list of events from the initial state. -/
def exec (concurrency : Nat) (evs : List Event) : Option State :=
  execFrom concurrency init evs

/-- Identifiers of the non-priority (normal) items of a list, in order. -/
def normalIds (l : List QueueItem) : List Nat :=
  (l.filter (fun i => !i.priority)).map QueueItem.taskId

/-- Identifiers of the normal tasks submitted by a list of events, in
submission order. -/
def submittedNormals : List Event → List Nat
  | [] => []
  | .add id false :: evs => id :: submittedNormals evs
  | _ :: evs => submittedNormals evs

/-- Inductive invariant of the queue model: the running counter equals the
number of started-but-unsettled tasks, it never exceeds the concurrency
limit, and task identifiers are unique across the started history and the
pending queue. -/
def Good (C : Nat) (s : State) : Prop :=
  s.running = (s.runningTasks.length : Int) ∧
  s.running ≤ (C : Int) ∧
  ((s.started ++ s.queue).map QueueItem.taskId).Nodup

/-- Contribution of one event to the list of submitted normal tasks. -/
def eventNormals : Event → List Nat
  | .add id false => [id]
  | _ => []

end PromiseQueue

/-- The two settlement calls available to the wrappedTask built by
PromiseQueue.add for the handle it returns: `resolve(value)` and
`reject(err)`. -/
inductive Settlement (α : Type) where
  | resolved (value : α)
  | rejected (err : JSError)
deriving DecidableEq

/-- Settlement calls performed by the wrappedTask of PromiseQueue.add, given
the outcome of `await task()`:
`try { const result = await task(); resolve(result); } catch (err) { reject(err); }`. -/
def wrappedTaskSettlements (outcome : Except JSError α) : List (Settlement α) :=
  match outcome with
  | .ok a => [.resolved a]
  | .error e => [.rejected e]

/-- Model of a JavaScript/JSON value as manipulated by validateAndFixData
and the object literals of geminiService. Objects are association lists in
property order. -/
inductive JVal where
  | null
  | undefined
  | bool (b : Bool)
  | num (q : ℚ)
  | str (s : String)
  | arr (elems : List JVal)
  | obj (fields : List (String × JVal))

/-- Field list of a value under object spread: the fields of an object,
nothing for a primitive (spreading a primitive contributes no entries). -/
def fieldsOf : JVal → List (String × JVal)
  | .obj fields => fields
  | _ => []

/-- Property update on a field list: replaces the value of the first binding
of the key in place, appending a new binding when the key is absent, as a
JavaScript property write or object-literal override does. -/
def setField : List (String × JVal) → String → JVal → List (String × JVal)
  | [], k, v => [(k, v)]
  | (k0, v0) :: fs, k, v =>
    if k0 == k then (k0, v) :: fs else (k0, v0) :: setField fs k v

/-- Property read `o[k]`: undefined when the key is absent or the value is
not an object. -/
def jsGet (o : JVal) (k : String) : JVal :=
  (List.lookup k (fieldsOf o)).getD .undefined

/-- Property write `o.k = v`; writing to a primitive leaves the value
unchanged (the write is not observable through later reads). -/
def jsSet (o : JVal) (k : String) (v : JVal) : JVal :=
  match o with
  | .obj fields => .obj (setField fields k v)
  | other => other

/-- JavaScript truthiness: false, 0, the empty string, null and undefined
are falsy; every other value in this model is truthy. -/
def truthy : JVal → Bool
  | .null => false
  | .undefined => false
  | .bool b => b
  | .num q => !(q == 0)
  | .str s => !(s == "")
  | .arr _ => true
  | .obj _ => true

/-- JavaScript `a || b`. -/
def jsOr (a b : JVal) : JVal := if truthy a then a else b

/-- JavaScript `Array.isArray(v)`. -/
def isArray : JVal → Bool
  | .arr _ => true
  | _ => false

/-- Elements of an array value. -/
def elemsOf : JVal → List JVal
  | .arr xs => xs
  | _ => []

/-- Whether `typeof v` is string. -/
def isStringVal : JVal → Bool
  | .str _ => true
  | _ => false

/-- JavaScript `String(v)` for the values of this model; array elements are
joined with commas, with null and undefined elements rendered empty. -/
def jsToString : JVal → String
  | .null => "null"
  | .undefined => "undefined"
  | .bool b => cond b "true" "false"
  | .num q => toString q
  | .str s => s
  | .arr xs => jsJoinArr xs
  | .obj _ => "[object Object]"
where
  /-- Comma-joined rendering of array elements. -/
  jsJoinArr : List JVal → String
  | [] => ""
  | x :: xs =>
    let hd := match x with
      | .null => ""
      | .undefined => ""
      | y => jsToString y
    match xs with
    | [] => hd
    | _ :: _ => hd ++ "," ++ jsJoinArr xs

/-- One element of the sub_questions map in validateAndFixData:
`({ ...sq, id: crypto.randomUUID(), content: sq.content || "", is_correct: !!sq.is_correct })`,
with `u` the value returned by crypto.randomUUID(). -/
def fixSubQuestion (u : String) (sq : JVal) : JVal :=
  .obj (setField (setField (setField (fieldsOf sq) "id" (.str u))
    "content" (jsOr (jsGet sq "content") (.str "")))
    "is_correct" (.bool (truthy (jsGet sq "is_correct"))))

/-- Translation of validateAndFixData. `uuid i` supplies the value of the
i-th crypto.randomUUID() call made while fixing sub_questions. -/
def validateAndFixData (data0 : JVal) (originalType : String)
    (uuid : Nat → String) : JVal :=
  let data1 : JVal :=
    if isArray data0 then
      match data0 with
      | .arr (x :: _) => x
      | _ => .obj []
    else data0
  let data2 := jsSet data1 "content"
    (jsOr (jsGet data1 "content") (.str "Nội dung câu hỏi..."))
  let data3 := jsSet data2 "solution_guide"
    (jsOr (jsGet data2 "solution_guide") (.str "(AI chưa tạo lời giải)"))
  if originalType == "multiple_choice" then
    let data4 :=
      if !isArray (jsGet data3 "options") ||
          (elemsOf (jsGet data3 "options")).length == 0 then
        jsSet data3 "options" (.arr [.str "(Chưa có đáp án)",
          .str "(Chưa có đáp án)", .str "(Chưa có đáp án)",
          .str "(Chưa có đáp án)"])
      else data3
    if !truthy (jsGet data4 "correct_option") then
      jsSet data4 "correct_option" (.str "A")
    else data4
  else if originalType == "true_false_group" then
    let data4 :=
      if !isArray (jsGet data3 "sub_questions") then
        jsSet data3 "sub_questions" (.arr [])
      else data3
    jsSet data4 "sub_questions"
      (.arr ((elemsOf (jsGet data4 "sub_questions")).enum.map
        (fun p => fixSubQuestion (uuid p.1) p.2)))
  else if originalType == "short_answer" then
    if !isStringVal (jsGet data3 "correct_answer") then
      jsSet data3 "correct_answer"
        (.str (jsToString (jsOr (jsGet data3 "correct_answer") (.str ""))))
    else data3
  else if originalType == "essay" then
    if !truthy (jsGet data3 "reference_solution") then
      jsSet data3 "reference_solution" (.str "")
    else data3
  else data3

/-- The `type` field of a Question value, a string by the Question type of
the program. -/
def questionTypeStr (q : JVal) : String :=
  match jsGet q "type" with
  | .str s => s
  | _ => ""

/-- Result assembly of regenerateQuestionData on the success path: the
parsed AI response is validated with validateAndFixData against the original
question's type, then the returned object literal is
`{ ...newData, id: question.id, type: question.type, figure_image: question.figure_image }`. -/
def regenerateReturn (question parsed : JVal) (uuid : Nat → String) : JVal :=
  let newData := validateAndFixData parsed (questionTypeStr question) uuid
  .obj (setField (setField (setField (fieldsOf newData)
    "id" (jsGet question "id"))
    "type" (jsGet question "type"))
    "figure_image" (jsGet question "figure_image"))

/-! Basic lemmas about the string model. -/

theorem isPre_iff (p s : JSStr) : isPre p s = true ↔ ∃ r, s = p ++ r := by
  induction p generalizing s with
  | nil => simp [isPre]
  | cons a p ih =>
    cases s with
    | nil => simp [isPre]
    | cons b s =>
      simp only [isPre, Bool.and_eq_true, beq_iff_eq, ih, List.cons_append,
        List.cons.injEq]
      constructor
      · rintro ⟨rfl, r, rfl⟩
        exact ⟨r, rfl, rfl⟩
      · rintro ⟨r, rfl, rfl⟩
        exact ⟨rfl, r, rfl⟩

theorem includesStr_iff (s p : JSStr) :
    includesStr s p = true ↔ ∃ l r, s = l ++ p ++ r := by
  induction s with
  | nil =>
    simp only [includesStr, isPre_iff]
    constructor
    · rintro ⟨r, h⟩
      exact ⟨[], r, by simpa using h⟩
    · rintro ⟨l, r, h⟩
      rcases List.append_eq_nil.mp h.symm with ⟨h1, rfl⟩
      rcases List.append_eq_nil.mp h1 with ⟨rfl, rfl⟩
      exact ⟨[], rfl⟩
  | cons c s ih =>
    simp only [includesStr, Bool.or_eq_true, isPre_iff, ih]
    constructor
    · rintro (⟨r, h⟩ | ⟨l, r, rfl⟩)
      · exact ⟨[], r, by simpa using h⟩
      · exact ⟨c :: l, r, rfl⟩
    · rintro ⟨l, r, h⟩
      cases l with
      | nil => exact Or.inl ⟨r, by simpa using h⟩
      | cons x l =>
        simp only [List.cons_append, List.cons.injEq] at h
        exact Or.inr ⟨l, r, h.2⟩

theorem char_toLower_rigid {c d : Char} (hd : d.toNat < 97)
    (h : Char.toLower c = d) : c = d := by
  have h1 : (if c.toNat ≥ 65 ∧ c.toNat ≤ 90 then Char.ofNat (c.toNat + 32)
      else c) = d := h
  by_cases hc : c.toNat ≥ 65 ∧ c.toNat ≤ 90
  · exfalso
    rw [if_pos hc] at h1
    have h2 := congrArg Char.toNat h1
    have h3 : (Char.ofNat (c.toNat + 32)).toNat = c.toNat + 32 := by
      have hvv : (c.toNat + 32).isValidChar := Or.inl (by omega)
      unfold Char.ofNat
      rw [dif_pos hvv]
      rfl
    rw [h3] at h2
    omega
  · rw [if_neg hc] at h1
    exact h1

theorem map_toLower_rigid :
    ∀ p0 p : JSStr, (∀ c d, d ∈ p → Char.toLower c = d → c = d) →
      List.map Char.toLower p0 = p → p0 = p := by
  intro p0
  induction p0 with
  | nil =>
    intro p _ h
    simpa using h.symm
  | cons a t ih =>
    intro p hrig h
    cases p with
    | nil => simp at h
    | cons b q =>
      simp only [List.map_cons, List.cons.injEq] at h
      have hb : a = b := hrig a b (List.mem_cons_self b q) h.1
      have ht : t = q :=
        ih q (fun c d hd hcd => hrig c d (List.mem_cons_of_mem b hd) hcd) h.2
      rw [hb, ht]

theorem includes_lower_of_rigid (m p : JSStr)
    (hfix : lowerStr p = p)
    (hrig : ∀ c d, d ∈ p → Char.toLower c = d → c = d) :
    includesStr (lowerStr m) p = includesStr m p := by
  have hiff : includesStr (lowerStr m) p = true ↔ includesStr m p = true := by
    rw [includesStr_iff, includesStr_iff]
    constructor
    · rintro ⟨l, r, hm⟩
      rcases List.map_eq_append_iff.mp hm with ⟨lp0, r0, rfl, hlp0, _⟩
      rcases List.map_eq_append_iff.mp hlp0 with ⟨l0, p0, rfl, _, hp0⟩
      exact ⟨l0, r0, by rw [map_toLower_rigid p0 p hrig hp0]⟩
    · rintro ⟨l, r, rfl⟩
      refine ⟨lowerStr l, lowerStr r, ?_⟩
      show List.map Char.toLower ((l ++ p) ++ r) = (lowerStr l ++ p) ++ lowerStr r
      simp only [List.map_append, lowerStr]
      rw [show List.map Char.toLower p = p from hfix]
  exact Bool.eq_iff_iff.mpr hiff

theorem includes_429_lower (m : JSStr) :
    includesStr (lowerStr m) ("429".data) = includesStr m ("429".data) := by
  apply includes_lower_of_rigid
  · decide
  · intro c d hd h
    have hd3 : d = '4' ∨ d = '2' ∨ d = '9' := by
      have hmem : d ∈ ['4', '2', '9'] := hd
      simpa using hmem
    have hlt : d.toNat < 97 := by
      rcases hd3 with rfl | rfl | rfl <;> decide
    exact char_toLower_rigid hlt h

/-! Agreement of the spec-side classifier conditions with the code's. -/

theorem specRateLimited_eq (e : JSError) :
    specRateLimited e = isRateLimitError e := by
  obtain ⟨c, st, msg⟩ := e
  cases msg with
  | none => rfl
  | some m =>
    show (_ || (containsCI m ("429".data) || containsCI m ("quota".data) ||
        containsCI m ("exhausted".data))) = _
    rw [show containsCI m ("429".data) = includesStr m ("429".data) from by
          rw [containsCI, show lowerStr ("429".data) = "429".data from by decide,
            includes_429_lower],
        show containsCI m ("quota".data) = includesStr (lowerStr m) ("quota".data) from by
          rw [containsCI, show lowerStr ("quota".data) = "quota".data from by decide],
        show containsCI m ("exhausted".data) =
            includesStr (lowerStr m) ("exhausted".data) from by
          rw [containsCI,
            show lowerStr ("exhausted".data) = "exhausted".data from by decide]]
    rfl

theorem specTransientCond_eq (e : JSError) :
    specTransientCond e = (isNetworkError e || isServerError e || isRpcError e) := by
  obtain ⟨c, st, msg⟩ := e
  cases msg with
  | none =>
    simp only [specTransientCond, isNetworkError, isServerError, isRpcError]
    cases hc500 : c == JSField.num 500 <;> cases hst500 : st == JSField.num 500 <;>
      cases hc503 : c == JSField.num 503 <;> cases hst503 : st == JSField.num 503 <;>
        rfl
  | some m =>
    simp only [specTransientCond, isNetworkError, isServerError, isRpcError,
      Bool.or_assoc]
    cases includesStr m ("xhr".data) <;> cases includesStr m ("fetch".data) <;>
      cases includesStr m ("network".data) <;>
      cases includesStr m ("Failed to fetch".data) <;>
      cases c == JSField.num 500 <;> cases st == JSField.num 500 <;>
      cases c == JSField.num 503 <;> cases st == JSField.num 503 <;>
      cases includesStr m ("error code: 6".data) <;> rfl

theorem classify_eq_rateLimited_iff (e : JSError) :
    classify e = .rateLimited ↔ isRateLimitError e = true := by
  unfold classify
  by_cases hrl : isRateLimitError e = true <;>
    by_cases htc : (isNetworkError e || isServerError e || isRpcError e) = true <;>
      simp [hrl, htc]

theorem classify_eq_transient_iff (e : JSError) :
    classify e = .transient ↔ (isRateLimitError e = false ∧
      (isNetworkError e || isServerError e || isRpcError e) = true) := by
  unfold classify
  by_cases hrl : isRateLimitError e = true <;>
    by_cases htc : (isNetworkError e || isServerError e || isRpcError e) = true <;>
      simp [hrl, htc]

theorem classify_eq_fatal_iff (e : JSError) :
    classify e = .fatal ↔ (isRateLimitError e = false ∧
      (isNetworkError e || isServerError e || isRpcError e) = false) := by
  unfold classify
  by_cases hrl : isRateLimitError e = true <;>
    by_cases htc : (isNetworkError e || isServerError e || isRpcError e) = true <;>
      simp [hrl, htc]

/-- C4: retryOperation's classification marks an error rateLimited exactly
under the spec's rate-limit condition (code or status 429, status
RESOURCE_EXHAUSTED, or message containing "429", "quota" or "exhausted"
case-insensitively), transient exactly when it is not rate-limited and the
spec's transient condition holds (connectivity term in the message, code or
status 500 or 503, or the RPC marker "error code: 6"), and fatal in every
other case. -/
theorem claimC4_classifier_agrees_with_spec (e : JSError) :
    (classify e = .rateLimited ↔ specRateLimited e = true) ∧
    (classify e = .transient ↔
      (specRateLimited e = false ∧ specTransientCond e = true)) ∧
    (classify e = .fatal ↔
      (specRateLimited e = false ∧ specTransientCond e = false)) := by
  rw [specRateLimited_eq e, specTransientCond_eq e]
  exact ⟨classify_eq_rateLimited_iff e, classify_eq_transient_iff e,
    classify_eq_fatal_iff e⟩

/-! Lemmas about retryOperation. -/

theorem retry_calls_pos (op : Nat → Except JSError α) (rand : Nat → ℚ)
    (idx n : Nat) (d : ℚ) : 1 ≤ (retryOperation op rand idx n d).calls := by
  rw [ retryOperation.eq_def]
  cases hop : op idx with
  | ok a => simp [hop]
  | error e =>
    cases n with
    | zero => simp [hop]
    | succ rem =>
      by_cases h1 : isRateLimitError e = true <;>
        by_cases h2 : (isNetworkError e || isServerError e || isRpcError e) = true <;>
          simp [hop, h1, h2]

theorem retry_result_eq_last (op : Nat → Except JSError α) (rand : Nat → ℚ) :
    ∀ (n idx : Nat) (d : ℚ),
      (retryOperation op rand idx n d).result =
        op (idx + (retryOperation op rand idx n d).calls - 1) := by
  intro n
  induction n with
  | zero =>
    intro idx d
    rw [ retryOperation.eq_def]
    cases hop : op idx with
    | ok a => simp [hop]
    | error e => simp [hop]
  | succ rem ih =>
    intro idx d
    rw [ retryOperation.eq_def]
    cases hop : op idx with
    | ok a => simp [hop]
    | error e =>
      by_cases h1 : isRateLimitError e = true
      · simp only [hop, h1, if_true]
        rw [ih (idx + 1) (d * 2)]
        congr 1
        omega
      · by_cases h2 : (isNetworkError e || isServerError e || isRpcError e) = true
        · simp only [hop, h1, h2, if_false, if_true, Bool.false_eq_true]
          rw [ih (idx + 1) (d * 2)]
          congr 1
          omega
        · simp [hop, h1, h2]

theorem geom_cons (d : ℚ) (n : Nat) :
    d :: (List.range n).map (fun i => d * 2 * 2 ^ i) =
      (List.range (n + 1)).map (fun i => d * 2 ^ i) := by
  rw [List.range_succ_eq_map, List.map_cons, List.map_map]
  refine congrArg₂ List.cons (by ring) ?_
  refine List.map_congr_left ?_
  intro i _
  show d * 2 * 2 ^ i = d * 2 ^ (i + 1)
  ring

theorem geom_cons_wait (d : ℚ) (n : Nat) :
    (WaitKind.backoff, d) ::
        (List.range n).map (fun i => (WaitKind.backoff, d * 2 * 2 ^ i)) =
      (List.range (n + 1)).map (fun i => (WaitKind.backoff, d * 2 ^ i)) := by
  rw [List.range_succ_eq_map, List.map_cons, List.map_map]
  refine congrArg₂ List.cons (by norm_num) ?_
  refine List.map_congr_left ?_
  intro i _
  show (WaitKind.backoff, d * 2 * 2 ^ i) = (WaitKind.backoff, d * 2 ^ (i + 1))
  refine congrArg₂ Prod.mk rfl (by ring)

theorem retry_delaysUsed (op : Nat → Except JSError α) (rand : Nat → ℚ) :
    ∀ (n idx : Nat) (d : ℚ),
      (retryOperation op rand idx n d).delaysUsed =
        (List.range (retryOperation op rand idx n d).calls).map
          (fun i => d * 2 ^ i) := by
  intro n
  induction n with
  | zero =>
    intro idx d
    rw [ retryOperation.eq_def]
    cases hop : op idx with
    | ok a => simp [hop, List.range_succ]
    | error e => simp [hop, List.range_succ]
  | succ rem ih =>
    intro idx d
    rw [ retryOperation.eq_def]
    cases hop : op idx with
    | ok a => simp [hop, List.range_succ]
    | error e =>
      by_cases h1 : isRateLimitError e = true
      · simp only [hop, h1, if_true]
        rw [ih (idx + 1) (d * 2), geom_cons]
      · by_cases h2 : (isNetworkError e || isServerError e || isRpcError e) = true
        · simp only [hop, h1, h2, if_false, if_true, Bool.false_eq_true]
          rw [ih (idx + 1) (d * 2), geom_cons]
        · simp [hop, h1, h2, List.range_succ]

theorem retry_transient_run (op : Nat → Except JSError α) (rand : Nat → ℚ)
    (err : Nat → JSError)
    (hop : ∀ i, op i = .error (err i))
    (hcls : ∀ i, classify (err i) = .transient) :
    ∀ (n idx : Nat) (d : ℚ),
      retryOperation op rand idx n d =
        ⟨.error (err (idx + n)), n + 1,
          (List.range n).map (fun i => (WaitKind.backoff, d * 2 ^ i)),
          (List.range (n + 1)).map (fun i => d * 2 ^ i)⟩ := by
  intro n
  induction n with
  | zero =>
    intro idx d
    rw [ retryOperation.eq_def]
    simp [hop, List.range_succ]
  | succ rem ih =>
    intro idx d
    rcases (classify_eq_transient_iff (err idx)).mp (hcls idx) with ⟨hrl, htc⟩
    rw [ retryOperation.eq_def]
    simp only [hop, hrl, htc, Bool.false_eq_true, if_false, if_true]
    rw [ih (idx + 1) (d * 2)]
    have hk : idx + 1 + rem = idx + (rem + 1) := by omega
    rw [hk, geom_cons_wait d rem, geom_cons d (rem + 1)]

theorem retry_rateLimit_wait_bounds (op : Nat → Except JSError α)
    (rand : Nat → ℚ) (hrand : ∀ i, 0 ≤ rand i ∧ rand i < 1) :
    ∀ (n idx : Nat) (d : ℚ) (w : WaitKind × ℚ),
      w ∈ (retryOperation op rand idx n d).waits →
      w.1 = WaitKind.rateLimit → 5000 ≤ w.2 ∧ w.2 ≤ 8000 := by
  intro n
  induction n with
  | zero =>
    intro idx d w hw _
    rw [ retryOperation.eq_def] at hw
    cases hop : op idx <;> simp [hop] at hw
  | succ rem ih =>
    intro idx d w hw hk
    rw [ retryOperation.eq_def] at hw
    cases hop : op idx with
    | ok a => simp [hop] at hw
    | error e =>
      by_cases h1 : isRateLimitError e = true
      · simp only [hop, h1, if_true, List.mem_cons] at hw
        rcases hw with rfl | hw
        · rcases hrand idx with ⟨hr0, hr1⟩
          constructor
          · show (5000 : ℚ) ≤ 5000 + rand idx * 3000
            nlinarith
          · show (5000 : ℚ) + rand idx * 3000 ≤ 8000
            nlinarith
        · exact ih (idx + 1) (d * 2) w hw hk
      · by_cases h2 : (isNetworkError e || isServerError e || isRpcError e) = true
        · simp only [hop, h1, h2, Bool.false_eq_true, if_false, if_true,
            List.mem_cons] at hw
          rcases hw with rfl | hw
          · exact absurd hk (by simp)
          · exact ih (idx + 1) (d * 2) w hw hk
        · simp [hop, h1, h2] at hw

theorem retry_rateLimit_waits_delay_indep (op : Nat → Except JSError α)
    (rand : Nat → ℚ) :
    ∀ (n idx : Nat) (d d2 : ℚ),
      ((retryOperation op rand idx n d).waits.filter
          (fun w => w.1 == WaitKind.rateLimit)).map Prod.snd =
        ((retryOperation op rand idx n d2).waits.filter
          (fun w => w.1 == WaitKind.rateLimit)).map Prod.snd := by
  intro n
  induction n with
  | zero =>
    intro idx d d2
    rw [ retryOperation.eq_def, retryOperation.eq_def]
    cases hop : op idx <;> simp [hop]
  | succ rem ih =>
    intro idx d d2
    rw [ retryOperation.eq_def, retryOperation.eq_def]
    cases hop : op idx with
    | ok a => simp [hop]
    | error e =>
      by_cases h1 : isRateLimitError e = true
      · simp only [hop, h1, if_true, List.filter_cons]
        simp only [beq_self_eq_true, if_true, List.map_cons]
        exact congrArg _ (ih (idx + 1) (d * 2) (d2 * 2))
      · by_cases h2 : (isNetworkError e || isServerError e || isRpcError e) = true
        · simp only [hop, h1, h2, Bool.false_eq_true, if_false, if_true,
            List.filter_cons]
          simpa using ih (idx + 1) (d * 2) (d2 * 2)
        · simp [hop, h1, h2]

/-- C3: an operation that fails on every invocation with a transient
classification is, under the default budget of 2 retries, invoked exactly
3 times (the initial attempt plus 2 retries), and the error observed on the
last attempt is propagated to the caller. -/
theorem claimC3_default_budget_three_attempts (op : Nat → Except JSError α)
    (rand : Nat → ℚ) (d : ℚ) (err : Nat → JSError)
    (hop : ∀ i, op i = .error (err i))
    (hcls : ∀ i, classify (err i) = .transient) :
    (retryOperation op rand 0 2 d).calls = 3 ∧
    (retryOperation op rand 0 2 d).result = .error (err 2) := by
  rw [retry_transient_run op rand err hop hcls 2 0 d]
  exact ⟨rfl, rfl⟩

theorem claimC3_witness :
    (retryOperation
        (fun _ => (.error ⟨.num 500, .undefined, none⟩ : Except JSError Unit))
        (fun _ => 0) 0 2 2000).calls = 3 ∧
    (retryOperation
        (fun _ => (.error ⟨.num 500, .undefined, none⟩ : Except JSError Unit))
        (fun _ => 0) 0 2 2000).result = .error ⟨.num 500, .undefined, none⟩ :=
  claimC3_default_budget_three_attempts _ _ 2000
    (fun _ => ⟨.num 500, .undefined, none⟩) (fun _ => rfl)
    (fun _ => (by decide :
      classify ⟨.num 500, .undefined, none⟩ = ErrClass.transient))

/-- C5: a first-attempt failure classified fatal (neither rate-limited nor
transient) is re-raised immediately: exactly one invocation of the
operation, no wait of any kind, and the error object propagated unchanged,
regardless of the remaining attempt budget. -/
theorem claimC5_fatal_fail_fast (op : Nat → Except JSError α)
    (rand : Nat → ℚ) (e : JSError) (hop : op 0 = .error e)
    (hcls : classify e = .fatal) (n : Nat) (d : ℚ) :
    retryOperation op rand 0 n d = ⟨.error e, 1, [], [d]⟩ := by
  rcases (classify_eq_fatal_iff e).mp hcls with ⟨hrl, htc⟩
  rw [ retryOperation.eq_def]
  cases n with
  | zero => simp [hop]
  | succ rem => simp [hop, hrl, htc]

theorem claimC5_witness :
    retryOperation
        (fun _ => (.error ⟨.num 400, .undefined, some ("Invalid schema".data)⟩ :
          Except JSError Unit)) (fun _ => 0) 0 5 2000 =
      ⟨.error ⟨.num 400, .undefined, some ("Invalid schema".data)⟩, 1, [],
        [2000]⟩ :=
  claimC5_fatal_fail_fast _ _ _ rfl (by decide) 5 2000

/-- C6: every wait inserted after a rate-limited failure measures between
5000 and 8000 ms inclusive; the delay parameter passed to the i-th
invocation is d * 2 ^ i, so it is doubled from each attempt to the next; and
the rate-limit wait durations are not derived from the delay: they are
identical under any other starting delay. -/
theorem claimC6_rate_limit_window (op : Nat → Except JSError α)
    (rand : Nat → ℚ) (hrand : ∀ i, 0 ≤ rand i ∧ rand i < 1)
    (n idx : Nat) (d : ℚ) :
    (∀ w ∈ (retryOperation op rand idx n d).waits,
        w.1 = WaitKind.rateLimit → 5000 ≤ w.2 ∧ w.2 ≤ 8000) ∧
    (retryOperation op rand idx n d).delaysUsed =
      (List.range (retryOperation op rand idx n d).calls).map
        (fun i => d * 2 ^ i) ∧
    (∀ d2 : ℚ,
      ((retryOperation op rand idx n d).waits.filter
          (fun w => w.1 == WaitKind.rateLimit)).map Prod.snd =
        ((retryOperation op rand idx n d2).waits.filter
          (fun w => w.1 == WaitKind.rateLimit)).map Prod.snd) :=
  ⟨fun w hw hk => retry_rateLimit_wait_bounds op rand hrand n idx d w hw hk,
   retry_delaysUsed op rand n idx d,
   fun d2 => retry_rateLimit_waits_delay_indep op rand n idx d d2⟩

theorem claimC6_witness :
    ((WaitKind.rateLimit, (6500 : ℚ)) ∈
      (retryOperation
        (fun _ => (.error ⟨.num 429, .undefined, none⟩ : Except JSError Unit))
        (fun _ => 1/2) 0 2 2000).waits) ∧
    (5000 ≤ (6500 : ℚ) ∧ (6500 : ℚ) ≤ 8000) := by
  have he : isRateLimitError ⟨.num 429, .undefined, none⟩ = true := by decide
  have hw : (retryOperation
      (fun _ => (.error ⟨.num 429, .undefined, none⟩ : Except JSError Unit))
      (fun _ => 1/2) 0 2 2000).waits =
      [(WaitKind.rateLimit, (6500 : ℚ)), (WaitKind.rateLimit, (6500 : ℚ))] := by
    rw [ retryOperation.eq_def]
    simp only [he, if_true]
    rw [ retryOperation.eq_def]
    simp only [he, if_true]
    rw [ retryOperation.eq_def]
    norm_num
  have hmem : (WaitKind.rateLimit, (6500 : ℚ)) ∈
      (retryOperation
        (fun _ => (.error ⟨.num 429, .undefined, none⟩ : Except JSError Unit))
        (fun _ => 1/2) 0 2 2000).waits := by
    rw [hw]
    exact List.mem_cons_self _ _
  exact ⟨hmem,
    (claimC6_rate_limit_window
      (fun _ => (.error ⟨.num 429, .undefined, none⟩ : Except JSError Unit))
      (fun _ => 1/2) (fun _ => by norm_num) 2 0 2000).1
      (WaitKind.rateLimit, 6500) hmem rfl⟩

/-- C7: under transient failures the backoff is classic exponential from the
caller-supplied base delay: with starting delay d the i-th wait is exactly
d * 2 ^ i ms, equal to the delay current at that attempt, and the next
invocation receives the doubled delay d * 2 ^ (i + 1) (e.g. waits of 2000 ms
then 4000 ms from an initial 2000 ms). -/
theorem claimC7_exponential_backoff (op : Nat → Except JSError α)
    (rand : Nat → ℚ) (err : Nat → JSError)
    (hop : ∀ i, op i = .error (err i))
    (hcls : ∀ i, classify (err i) = .transient) (n idx : Nat) (d : ℚ) :
    (retryOperation op rand idx n d).waits =
      (List.range n).map (fun i => (WaitKind.backoff, d * 2 ^ i)) ∧
    (retryOperation op rand idx n d).delaysUsed =
      (List.range (n + 1)).map (fun i => d * 2 ^ i) := by
  rw [retry_transient_run op rand err hop hcls n idx d]
  exact ⟨rfl, rfl⟩

theorem claimC7_witness :
    (retryOperation
        (fun _ => (.error ⟨.num 500, .undefined, none⟩ : Except JSError Unit))
        (fun _ => 0) 0 2 2000).waits =
      [(WaitKind.backoff, (2000 : ℚ)), (WaitKind.backoff, (4000 : ℚ))] ∧
    (retryOperation
        (fun _ => (.error ⟨.num 500, .undefined, none⟩ : Except JSError Unit))
        (fun _ => 0) 0 2 2000).delaysUsed =
      [(2000 : ℚ), 4000, 8000] := by
  have h := claimC7_exponential_backoff
    (fun _ => (.error ⟨.num 500, .undefined, none⟩ : Except JSError Unit))
    (fun _ => 0) (fun _ => ⟨.num 500, .undefined, none⟩) (fun _ => rfl)
    (fun _ => (by decide :
      classify ⟨.num 500, .undefined, none⟩ = ErrClass.transient)) 2 0 2000
  refine ⟨h.1.trans ?_, h.2.trans ?_⟩
  · show List.map (fun i => (WaitKind.backoff, (2000 : ℚ) * 2 ^ i))
      [0, 1] = _
    norm_num
  · show List.map (fun i => (2000 : ℚ) * 2 ^ i) [0, 1, 2] = _
    norm_num

/-- C9: the handle returned by PromiseQueue.add is settled exactly once by
its wrappedTask, whatever the number of internal retry attempts: it is
resolved with the task's value when the retry-wrapped work eventually
succeeds, and rejected with the last observed error — the outcome of the
final operation invocation, propagated unchanged — when it terminally
fails. -/
theorem claimC9_handle_settled_once (op : Nat → Except JSError α)
    (rand : Nat → ℚ) (n : Nat) (d : ℚ) :
    (wrappedTaskSettlements (retryOperation op rand 0 n d).result).length = 1 ∧
    (∀ a, (retryOperation op rand 0 n d).result = .ok a →
      wrappedTaskSettlements (retryOperation op rand 0 n d).result =
        [Settlement.resolved a] ∧
      op ((retryOperation op rand 0 n d).calls - 1) = .ok a) ∧
    (∀ e, (retryOperation op rand 0 n d).result = .error e →
      wrappedTaskSettlements (retryOperation op rand 0 n d).result =
        [Settlement.rejected e] ∧
      op ((retryOperation op rand 0 n d).calls - 1) = .error e) := by
  have hlast := retry_result_eq_last op rand n 0 d
  rw [Nat.zero_add] at hlast
  refine ⟨?_,
    fun a ha => ⟨by rw [ha]; rfl, by rw [← hlast, ha]⟩,
    fun e he => ⟨by rw [he]; rfl, by rw [← hlast, he]⟩⟩
  cases h : (retryOperation op rand 0 n d).result <;>
    simp [wrappedTaskSettlements, h]

theorem claimC9_witness :
    (retryOperation (fun _ => (.ok 7 : Except JSError Nat))
        (fun _ => 0) 0 2 1).result = .ok 7 ∧
    wrappedTaskSettlements (retryOperation
        (fun _ => (.ok 7 : Except JSError Nat)) (fun _ => 0) 0 2 1).result =
      [Settlement.resolved 7] ∧
    (fun _ : Nat => (.ok 7 : Except JSError Nat))
        ((retryOperation (fun _ => (.ok 7 : Except JSError Nat))
          (fun _ => 0) 0 2 1).calls - 1) = .ok 7 := by
  have h := (claimC9_handle_settled_once
    (fun _ => (.ok 7 : Except JSError Nat)) (fun _ => 0) 2 1).2.1 7 rfl
  exact ⟨rfl, h.1, h.2⟩

/-! Lemmas about the PromiseQueue model. -/

namespace PromiseQueue

theorem runAux_started_queue (C : Nat) :
    ∀ (q : List QueueItem) (r : Int) (rts : List Nat) (st : List QueueItem),
      (runAux C q r rts st).started ++ (runAux C q r rts st).queue =
        st ++ q := by
  intro q
  induction q with
  | nil =>
    intro r rts st
    simp [runAux]
  | cons item rest ih =>
    intro r rts st
    by_cases h : r < (C : Int)
    · simp only [runAux, if_pos h]
      rw [ih]
      simp
    · simp only [runAux, if_neg h]

theorem runAux_running_eq (C : Nat) :
    ∀ (q : List QueueItem) (r : Int) (rts : List Nat) (st : List QueueItem),
      r = (rts.length : Int) →
      (runAux C q r rts st).running =
        ((runAux C q r rts st).runningTasks.length : Int) := by
  intro q
  induction q with
  | nil =>
    intro r rts st hr
    simpa [runAux] using hr
  | cons item rest ih =>
    intro r rts st hr
    by_cases h : r < (C : Int)
    · simp only [runAux, if_pos h]
      refine ih (r + 1) (rts ++ [item.taskId]) (st ++ [item]) ?_
      rw [hr]
      simp [List.length_append]
    · simpa [runAux, if_neg h] using hr

theorem runAux_running_le (C : Nat) :
    ∀ (q : List QueueItem) (r : Int) (rts : List Nat) (st : List QueueItem),
      r ≤ (C : Int) →
      (runAux C q r rts st).running ≤ (C : Int) := by
  intro q
  induction q with
  | nil =>
    intro r rts st hr
    simpa [runAux] using hr
  | cons item rest ih =>
    intro r rts st hr
    by_cases h : r < (C : Int)
    · simp only [runAux, if_pos h]
      exact ih (r + 1) (rts ++ [item.taskId]) (st ++ [item]) (by omega)
    · simpa [runAux, if_neg h] using hr

theorem insertItem_perm (q : List QueueItem) (item : QueueItem) :
    (insertItem q item).Perm (q ++ [item]) := by
  unfold insertItem
  by_cases hp : item.priority = true
  · rw [if_pos hp]
    cases hidx : q.findIdx? (fun i => !i.priority) with
    | none => exact List.Perm.refl _
    | some insertIndex =>
      have h1 : (q.take insertIndex ++ item :: q.drop insertIndex).Perm
          (item :: q) := by
        have h2 := @List.perm_middle _ item (q.take insertIndex)
          (q.drop insertIndex)
        rwa [List.take_append_drop] at h2
      exact h1.trans (List.perm_append_singleton item q).symm
  · rw [if_neg hp]

theorem insertItem_normalIds (q : List QueueItem) (item : QueueItem) :
    normalIds (insertItem q item) =
      normalIds q ++ (if item.priority then [] else [item.taskId]) := by
  unfold insertItem normalIds
  by_cases hp : item.priority = true
  · rw [if_pos hp, if_pos hp]
    cases hidx : q.findIdx? (fun i => !i.priority) with
    | none => simp [List.filter_append, hp]
    | some insertIndex =>
      simp only [List.filter_append, List.filter_cons, hp, Bool.not_true,
        Bool.false_eq_true, if_false, List.append_nil, List.map_append]
      rw [← List.map_append, ← List.filter_append, List.take_append_drop]
  · rw [if_neg hp, if_neg hp]
    simp only [Bool.not_eq_true] at hp
    simp [List.filter_append, hp]

theorem normalIds_append (a b : List QueueItem) :
    normalIds (a ++ b) = normalIds a ++ normalIds b := by
  simp [normalIds, List.filter_append]

theorem submittedNormals_cons (e : Event) (evs : List Event) :
    submittedNormals (e :: evs) = eventNormals e ++ submittedNormals evs := by
  cases e with
  | add id priority => cases priority <;> rfl
  | complete id => rfl

theorem run_started_queue (C : Nat) (s : State) :
    (run C s).started ++ (run C s).queue = s.started ++ s.queue :=
  runAux_started_queue C s.queue s.running s.runningTasks s.started

theorem step_good (C : Nat) (s s2 : State) (e : Event)
    (h : step C s e = some s2) (hg : Good C s) : Good C s2 := by
  rcases hg with ⟨h1, h2, h3⟩
  cases e with
  | add id priority =>
    simp only [step] at h
    by_cases hc : ((s.queue ++ s.started).map QueueItem.taskId).contains id
    · rw [if_pos hc] at h
      exact absurd h (by simp)
    · rw [if_neg hc] at h
      injection h with h
      subst h
      refine ⟨runAux_running_eq C _ _ _ _ h1, runAux_running_le C _ _ _ _ h2, ?_⟩
      have hid : ¬ id ∈ (s.queue ++ s.started).map QueueItem.taskId := by
        simpa using hc
      have hperm : (s.started ++ insertItem s.queue ⟨id, priority⟩).Perm
          ((s.started ++ s.queue) ++ [⟨id, priority⟩]) := by
        have hp1 : (s.started ++ insertItem s.queue ⟨id, priority⟩).Perm
            (s.started ++ (s.queue ++ [⟨id, priority⟩])) :=
          List.Perm.append_left s.started (insertItem_perm _ _)
        rw [← List.append_assoc] at hp1
        exact hp1
      have hnew : (((s.started ++ s.queue) ++ [(⟨id, priority⟩ : QueueItem)]).map
          QueueItem.taskId).Nodup := by
        rw [List.map_append, List.nodup_append]
        refine ⟨h3, by simp, ?_⟩
        intro x hx hxid
        simp only [List.map_cons, List.map_nil, List.mem_singleton] at hxid
        subst hxid
        apply hid
        rw [List.map_append, List.mem_append] at hx ⊢
        tauto
      rw [run_started_queue]
      have hgoal : ((s.started ++ insertItem s.queue ⟨id, priority⟩).map
          QueueItem.taskId).Nodup :=
        ((hperm.map QueueItem.taskId).symm).nodup hnew
      exact hgoal
  | complete id =>
    simp only [step] at h
    by_cases hc : s.runningTasks.contains id
    · rw [if_pos hc] at h
      injection h with h
      subst h
      have hmem : id ∈ s.runningTasks := by simpa using hc
      have hlen := List.length_erase_of_mem hmem
      have hpos : 0 < s.runningTasks.length :=
        List.length_pos.mpr (List.ne_nil_of_mem hmem)
      refine ⟨?_, ?_, ?_⟩
      · refine runAux_running_eq C _ _ _ _ ?_
        show s.running - 1 = ((s.runningTasks.erase id).length : Int)
        rw [hlen]
        omega
      · refine runAux_running_le C _ _ _ _ ?_
        show s.running - 1 ≤ (C : Int)
        omega
      · rw [run_started_queue]
        exact h3
    · rw [if_neg hc] at h
      exact absurd h (by simp)

theorem step_normals (C : Nat) (s s2 : State) (e : Event)
    (h : step C s e = some s2) :
    normalIds s2.started ++ normalIds s2.queue =
      (normalIds s.started ++ normalIds s.queue) ++ eventNormals e := by
  have key : ∀ s3 : State,
      normalIds (run C s3).started ++ normalIds (run C s3).queue =
        normalIds s3.started ++ normalIds s3.queue := by
    intro s3
    rw [← normalIds_append, run_started_queue, normalIds_append]
  cases e with
  | add id priority =>
    simp only [step] at h
    by_cases hc : ((s.queue ++ s.started).map QueueItem.taskId).contains id
    · rw [if_pos hc] at h
      exact absurd h (by simp)
    · rw [if_neg hc] at h
      injection h with h
      subst h
      rw [key]
      have hq : normalIds (insertItem s.queue ⟨id, priority⟩) =
          normalIds s.queue ++ (if priority then [] else [id]) :=
        insertItem_normalIds s.queue ⟨id, priority⟩
      show normalIds s.started ++ normalIds (insertItem s.queue ⟨id, priority⟩) =
        (normalIds s.started ++ normalIds s.queue) ++ eventNormals (.add id priority)
      rw [hq]
      cases priority <;> simp [eventNormals, List.append_assoc]
  | complete id =>
    simp only [step] at h
    by_cases hc : s.runningTasks.contains id
    · rw [if_pos hc] at h
      injection h with h
      subst h
      rw [key]
      show normalIds s.started ++ normalIds s.queue =
        (normalIds s.started ++ normalIds s.queue) ++ eventNormals (.complete id)
      simp [eventNormals]
    · rw [if_neg hc] at h
      exact absurd h (by simp)

theorem execFrom_good (C : Nat) :
    ∀ (evs : List Event) (s s2 : State),
      execFrom C s evs = some s2 → Good C s → Good C s2 := by
  intro evs
  induction evs with
  | nil =>
    intro s s2 h hg
    simp only [execFrom, Option.some.injEq] at h
    rwa [← h]
  | cons e evs ih =>
    intro s s2 h hg
    rw [execFrom] at h
    cases hstep : step C s e with
    | none =>
      rw [hstep] at h
      exact absurd h (by simp)
    | some s1 =>
      rw [hstep] at h
      exact ih s1 s2 h (step_good C s s1 e hstep hg)

theorem execFrom_normals (C : Nat) :
    ∀ (evs : List Event) (s s2 : State),
      execFrom C s evs = some s2 →
      normalIds s2.started ++ normalIds s2.queue =
        (normalIds s.started ++ normalIds s.queue) ++ submittedNormals evs := by
  intro evs
  induction evs with
  | nil =>
    intro s s2 h
    simp only [execFrom, Option.some.injEq] at h
    rw [← h]
    simp [submittedNormals]
  | cons e evs ih =>
    intro s s2 h
    rw [execFrom] at h
    cases hstep : step C s e with
    | none =>
      rw [hstep] at h
      exact absurd h (by simp)
    | some s1 =>
      rw [hstep] at h
      rw [ih s1 s2 h, step_normals C s s1 e hstep, submittedNormals_cons,
        List.append_assoc]

end PromiseQueue

theorem findIdx_none_of_all_priority :
    ∀ (hs : List QueueItem) (k : Nat), (∀ x ∈ hs, x.priority = true) →
      List.findIdx? (fun i => !i.priority) hs k = none := by
  intro hs
  induction hs with
  | nil => intro k _; rfl
  | cons x t ih =>
    intro k hall
    rw [List.findIdx?_cons, hall x (by simp)]
    simp only [Bool.not_true, Bool.false_eq_true, if_false]
    exact ih (k + 1) (fun y hy => hall y (by simp [hy]))

theorem findIdx_first_normal :
    ∀ (hs : List QueueItem) (k : Nat) (n : QueueItem) (ns2 : List QueueItem),
      (∀ x ∈ hs, x.priority = true) → n.priority = false →
      List.findIdx? (fun i => !i.priority) (hs ++ n :: ns2) k =
        some (k + hs.length) := by
  intro hs
  induction hs with
  | nil =>
    intro k n ns2 _ hn
    rw [List.nil_append, List.findIdx?_cons, hn]
    simp
  | cons x t ih =>
    intro k n ns2 hall hn
    rw [List.cons_append, List.findIdx?_cons, hall x (by simp)]
    simp only [Bool.not_true, Bool.false_eq_true, if_false]
    rw [ih (k + 1) n ns2 (fun y hy => hall y (by simp [hy])) hn]
    simp only [List.length_cons, Option.some.injEq]
    omega

/-- C1: along every event sequence accepted from the initial state of
new PromiseQueue(C), the running counter satisfies 0 ≤ running ≤ C, and it
equals the number of started-but-unsettled tasks at every instant: run only
starts an item while running < C, incrementing the counter once per started
item, and each settlement decrements it exactly once before re-invoking
run. -/
theorem claimC1_running_bounded (C : Nat) (evs : List PromiseQueue.Event)
    (s : PromiseQueue.State) (h : PromiseQueue.exec C evs = some s) :
    0 ≤ s.running ∧ s.running ≤ (C : Int) ∧
      s.running = (s.runningTasks.length : Int) := by
  have hg : PromiseQueue.Good C s := by
    refine PromiseQueue.execFrom_good C evs PromiseQueue.init s h
      ⟨rfl, ?_, by simp [PromiseQueue.init]⟩
    show (0 : Int) ≤ (C : Int)
    positivity
  rcases hg with ⟨h1, h2, _⟩
  refine ⟨?_, h2, h1⟩
  rw [h1]
  positivity

theorem claimC1_witness :
    PromiseQueue.exec 1
        [.add 0 false, .add 1 true, .add 2 false, .complete 0] =
      some ⟨[⟨2, false⟩], 1, [1], [⟨0, false⟩, ⟨1, true⟩]⟩ ∧
    (0 ≤ (⟨[⟨2, false⟩], 1, [1], [⟨0, false⟩, ⟨1, true⟩]⟩ :
        PromiseQueue.State).running ∧
      (⟨[⟨2, false⟩], 1, [1], [⟨0, false⟩, ⟨1, true⟩]⟩ :
        PromiseQueue.State).running ≤ ((1 : Nat) : Int) ∧
      (⟨[⟨2, false⟩], 1, [1], [⟨0, false⟩, ⟨1, true⟩]⟩ :
          PromiseQueue.State).running =
        ((⟨[⟨2, false⟩], 1, [1], [⟨0, false⟩, ⟨1, true⟩]⟩ :
          PromiseQueue.State).runningTasks.length : Int)) :=
  ⟨by decide,
    claimC1_running_bounded 1
      [.add 0 false, .add 1 true, .add 2 false, .complete 0]
      ⟨[⟨2, false⟩], 1, [1], [⟨0, false⟩, ⟨1, true⟩]⟩ (by decide)⟩

/-- C2: on a queue in which every priority (high) item precedes every
non-priority (normal) item, PromiseQueue.add inserts a new high task exactly
between the queued high tasks and the queued normal tasks — at the index of
the first normal entry, or at the tail when no normal entry is queued — so
after insertion every high task still precedes every normal task and the
new high task follows all previously queued high tasks; a normal task is
always appended at the tail. -/
theorem claimC2_priority_insertion (hs ns : List QueueItem) (id : Nat)
    (hhs : ∀ x ∈ hs, x.priority = true)
    (hns : ∀ x ∈ ns, x.priority = false) :
    PromiseQueue.insertItem (hs ++ ns) ⟨id, true⟩ = hs ++ ⟨id, true⟩ :: ns ∧
    PromiseQueue.insertItem (hs ++ ns) ⟨id, false⟩ =
      (hs ++ ns) ++ [⟨id, false⟩] := by
  constructor
  · show (if true then _ else _) = _
    rw [if_pos rfl]
    cases ns with
    | nil =>
      rw [List.append_nil, findIdx_none_of_all_priority hs 0 hhs]
    | cons n ns2 =>
      rw [findIdx_first_normal hs 0 n ns2 hhs (hns n (by simp))]
      show List.take (0 + hs.length) (hs ++ n :: ns2) ++ ⟨id, true⟩ ::
          List.drop (0 + hs.length) (hs ++ n :: ns2) = hs ++ ⟨id, true⟩ :: n :: ns2
      rw [Nat.zero_add, List.take_left, List.drop_left]
  · show (if false then _ else _) = _
    rw [if_neg (by simp)]

theorem claimC2_witness :
    (∀ x ∈ [(⟨0, true⟩ : QueueItem)], x.priority = true) ∧
    (∀ x ∈ [(⟨1, false⟩ : QueueItem)], x.priority = false) ∧
    PromiseQueue.insertItem [⟨0, true⟩, ⟨1, false⟩] ⟨5, true⟩ =
      [⟨0, true⟩, ⟨5, true⟩, ⟨1, false⟩] ∧
    PromiseQueue.insertItem [⟨0, true⟩, ⟨1, false⟩] ⟨5, false⟩ =
      [⟨0, true⟩, ⟨1, false⟩, ⟨5, false⟩] :=
  ⟨by decide, by decide,
    (claimC2_priority_insertion [⟨0, true⟩] [⟨1, false⟩] 5
      (by decide) (by decide)).1,
    (claimC2_priority_insertion [⟨0, true⟩] [⟨1, false⟩] 5
      (by decide) (by decide)).2⟩

/-- C8: dispatch order agrees with submission order within the normal
class: whenever normal tasks a then b were submitted along an accepted
event sequence and b has been started, a was started before b — the
sequence of started normal tasks contains a before b. -/
theorem claimC8_fifo_within_class (C : Nat) (evs : List PromiseQueue.Event)
    (s : PromiseQueue.State) (a b : Nat)
    (h : PromiseQueue.exec C evs = some s)
    (hab : List.Sublist [a, b] (PromiseQueue.submittedNormals evs))
    (hb : b ∈ PromiseQueue.normalIds s.started) :
    List.Sublist [a, b] (PromiseQueue.normalIds s.started) := by
  have hg : PromiseQueue.Good C s := by
    refine PromiseQueue.execFrom_good C evs PromiseQueue.init s h
      ⟨rfl, ?_, by simp [PromiseQueue.init]⟩
    show (0 : Int) ≤ (C : Int)
    positivity
  have hn := PromiseQueue.execFrom_normals C evs PromiseQueue.init s h
  have hn2 : PromiseQueue.normalIds s.started ++ PromiseQueue.normalIds s.queue
      = PromiseQueue.submittedNormals evs := by
    rw [hn]
    show PromiseQueue.normalIds [] ++ PromiseQueue.normalIds [] ++ _ = _
    rfl
  rcases hg with ⟨-, -, h3⟩
  have hnd : (PromiseQueue.normalIds s.started ++
      PromiseQueue.normalIds s.queue).Nodup := by
    refine List.Nodup.sublist ?_ h3
    rw [List.map_append]
    exact List.Sublist.append ((List.filter_sublist _).map _)
      ((List.filter_sublist _).map _)
  rw [← hn2] at hab
  rcases List.sublist_append_iff.mp hab with ⟨u, v, huv, hu, hv⟩
  have hdisj := List.disjoint_of_nodup_append hnd
  cases u with
  | nil =>
    rw [List.nil_append] at huv
    subst huv
    exact (hdisj hb (hv.subset (by simp))).elim
  | cons x u1 =>
    cases u1 with
    | nil =>
      simp only [List.cons_append, List.nil_append, List.cons.injEq] at huv
      rcases huv with ⟨rfl, rfl⟩
      exact (hdisj hb (hv.subset (by simp))).elim
    | cons y u2 =>
      simp only [List.cons_append, List.cons.injEq] at huv
      rcases huv with ⟨rfl, rfl, huv2⟩
      rcases List.append_eq_nil.mp huv2.symm with ⟨rfl, rfl⟩
      simpa using hu

theorem claimC8_witness :
    PromiseQueue.exec 1
        [.add 0 false, .add 1 false, .add 2 false, .complete 0, .complete 1] =
      some ⟨[], 1, [2], [⟨0, false⟩, ⟨1, false⟩, ⟨2, false⟩]⟩ ∧
    List.Sublist [1, 2] (PromiseQueue.submittedNormals
      [.add 0 false, .add 1 false, .add 2 false, .complete 0, .complete 1]) ∧
    2 ∈ PromiseQueue.normalIds
      [(⟨0, false⟩ : QueueItem), ⟨1, false⟩, ⟨2, false⟩] ∧
    List.Sublist [1, 2] (PromiseQueue.normalIds
      [(⟨0, false⟩ : QueueItem), ⟨1, false⟩, ⟨2, false⟩]) :=
  ⟨by decide, by decide, by decide,
    claimC8_fifo_within_class 1
      [.add 0 false, .add 1 false, .add 2 false, .complete 0, .complete 1]
      ⟨[], 1, [2], [⟨0, false⟩, ⟨1, false⟩, ⟨2, false⟩]⟩ 1 2
      (by decide) (by decide) (by decide)⟩

theorem lookup_setField_self (fs : List (String × JVal)) (k : String)
    (v : JVal) : List.lookup k (setField fs k v) = some v := by
  induction fs with
  | nil => simp [setField, List.lookup]
  | cons f fs ih =>
    obtain ⟨k0, v0⟩ := f
    by_cases h : k0 = k
    · subst h
      simp [setField, List.lookup]
    · have hb : (k0 == k) = false := by simpa using h
      have hb2 : (k == k0) = false := by simpa using Ne.symm h
      simp only [setField, hb, Bool.false_eq_true, if_false, List.lookup]
      rw [hb2]
      exact ih

theorem lookup_setField_other (fs : List (String × JVal)) (k k2 : String)
    (v : JVal) (hne : k2 ≠ k) :
    List.lookup k2 (setField fs k v) = List.lookup k2 fs := by
  have hbk : (k2 == k) = false := by simpa using hne
  induction fs with
  | nil =>
    simp only [setField, List.lookup]
    rw [hbk]
  | cons f fs ih =>
    obtain ⟨k0, v0⟩ := f
    by_cases h : k0 = k
    · subst h
      simp only [setField, beq_self_eq_true, if_true, List.lookup]
      rw [hbk]
    · have hb : (k0 == k) = false := by simpa using h
      simp only [setField, hb, Bool.false_eq_true, if_false, List.lookup]
      by_cases h2 : k2 = k0
      · subst h2
        simp
      · have hb2 : (k2 == k0) = false := by simpa using h2
        rw [hb2]
        exact ih

/-- C10: the question assembled by regenerateQuestionData keeps the
original question's id, type and figure_image — the returned object literal
overrides whatever the parsed AI response carried in those fields — while
every other field of the result is the corresponding field of the validated
AI response. -/
theorem claimC10_regenerate_preserves_frame (question parsed : JVal)
    (uuid : Nat → String) :
    jsGet (regenerateReturn question parsed uuid) "id" =
      jsGet question "id" ∧
    jsGet (regenerateReturn question parsed uuid) "type" =
      jsGet question "type" ∧
    jsGet (regenerateReturn question parsed uuid) "figure_image" =
      jsGet question "figure_image" ∧
    (∀ k, k ≠ "id" → k ≠ "type" → k ≠ "figure_image" →
      jsGet (regenerateReturn question parsed uuid) k =
        jsGet (validateAndFixData parsed (questionTypeStr question) uuid) k) := by
  refine ⟨?_, ?_, ?_, ?_⟩
  · show (List.lookup "id" (setField (setField (setField
        (fieldsOf (validateAndFixData parsed (questionTypeStr question) uuid))
        "id" (jsGet question "id")) "type" (jsGet question "type"))
        "figure_image" (jsGet question "figure_image"))).getD .undefined = _
    rw [lookup_setField_other _ _ _ _ (by decide),
      lookup_setField_other _ _ _ _ (by decide), lookup_setField_self]
    rfl
  · show (List.lookup "type" (setField (setField (setField
        (fieldsOf (validateAndFixData parsed (questionTypeStr question) uuid))
        "id" (jsGet question "id")) "type" (jsGet question "type"))
        "figure_image" (jsGet question "figure_image"))).getD .undefined = _
    rw [lookup_setField_other _ _ _ _ (by decide), lookup_setField_self]
    rfl
  · show (List.lookup "figure_image" (setField (setField (setField
        (fieldsOf (validateAndFixData parsed (questionTypeStr question) uuid))
        "id" (jsGet question "id")) "type" (jsGet question "type"))
        "figure_image" (jsGet question "figure_image"))).getD .undefined = _
    rw [lookup_setField_self]
    rfl
  · intro k hk1 hk2 hk3
    show (List.lookup k (setField (setField (setField
        (fieldsOf (validateAndFixData parsed (questionTypeStr question) uuid))
        "id" (jsGet question "id")) "type" (jsGet question "type"))
        "figure_image" (jsGet question "figure_image"))).getD .undefined = _
    rw [lookup_setField_other _ _ _ _ hk3, lookup_setField_other _ _ _ _ hk2,
      lookup_setField_other _ _ _ _ hk1]
    rfl

theorem claimC10_witness :
    jsGet (regenerateReturn
        (JVal.obj [("id", .str "q1"), ("type", .str "essay"),
          ("figure_image", .null), ("content", .str "old")])
        (JVal.obj [("id", .str "HACK"), ("type", .str "short_answer"),
          ("content", .str "new")]) (fun _ => "u")) "id" =
      jsGet (JVal.obj [("id", .str "q1"), ("type", .str "essay"),
        ("figure_image", .null), ("content", .str "old")]) "id" ∧
    jsGet (regenerateReturn
        (JVal.obj [("id", .str "q1"), ("type", .str "essay"),
          ("figure_image", .null), ("content", .str "old")])
        (JVal.obj [("id", .str "HACK"), ("type", .str "short_answer"),
          ("content", .str "new")]) (fun _ => "u")) "id" = JVal.str "q1" ∧
    (("content" : String) ≠ "id" ∧ ("content" : String) ≠ "type" ∧
      ("content" : String) ≠ "figure_image") ∧
    jsGet (regenerateReturn
        (JVal.obj [("id", .str "q1"), ("type", .str "essay"),
          ("figure_image", .null), ("content", .str "old")])
        (JVal.obj [("id", .str "HACK"), ("type", .str "short_answer"),
          ("content", .str "new")]) (fun _ => "u")) "content" =
      jsGet (validateAndFixData
        (JVal.obj [("id", .str "HACK"), ("type", .str "short_answer"),
          ("content", .str "new")])
        (questionTypeStr (JVal.obj [("id", .str "q1"), ("type", .str "essay"),
          ("figure_image", .null), ("content", .str "old")]))
        (fun _ => "u")) "content" :=
  ⟨(claimC10_regenerate_preserves_frame
      (JVal.obj [("id", .str "q1"), ("type", .str "essay"),
        ("figure_image", .null), ("content", .str "old")])
      (JVal.obj [("id", .str "HACK"), ("type", .str "short_answer"),
        ("content", .str "new")]) (fun _ => "u")).1,
   rfl,
   ⟨by decide, by decide, by decide⟩,
   (claimC10_regenerate_preserves_frame
      (JVal.obj [("id", .str "q1"), ("type", .str "essay"),
        ("figure_image", .null), ("content", .str "old")])
      (JVal.obj [("id", .str "HACK"), ("type", .str "short_answer"),
        ("content", .str "new")]) (fun _ => "u")).2.2.2 "content"
     (by decide) (by decide) (by decide)⟩
